import Mathlib

/-!
Shallow embedding of the event-broadcast subsystem of qmsk/go-web
(`events.go`, the `EventConfig`/`StateFunc` revision).

Go `Event` and `State` are both `interface\x7b\x7d`: we model both by one
type parameter `E`, with `Inhabited.default` standing for the
`struct\x7b\x7d\x7b\x7d` value that `Events.state` returns when no
`StateFunc` is configured.

A Go `chan Event` with buffer `EVENTS_BUFFER` is modelled by `Chan`:
a FIFO list `buf` (front = oldest), a capacity `cap`, and a closed flag.
Channel identity (the map key of `clientSet`) is a natural number; the
whole channel heap is a function `Nat → Chan E` inside `World`, together
with the registry (`clients`, the key set of the Go `clientSet` map), an
allocation counter for fresh channels, and `running`, which records
whether the control-loop goroutine `Events.run` is still in its select
loop (when it returns, it closes `registerChan`/`unregisterChan`, so any
later `listen`/`stop` send panics).

The Go select non-blocking send `select \x7b case ch <- e: ... default \x7d`
on a buffered channel succeeds exactly when the buffer has room
(`buf.length < cap`); on a closed channel it would panic, which the
checked variants (`sendChecked` etc., used for the registry invariant)
make explicit.
-/

namespace GoWeb

/-- A buffered Go channel of events: FIFO buffer, capacity, closed flag. -/
structure Chan (E : Type) where
  buf : List E
  cap : Nat
  isClosed : Bool
  deriving Repr, DecidableEq

/-- The state owned by the `Events.run` control loop, plus the channel heap. -/
structure World (E : Type) where
  /-- channel heap: contents of every allocated client channel, by id -/
  chans : Nat → Chan E
  /-- the `clientSet` registry: ids of currently registered client channels -/
  clients : List Nat
  /-- allocation counter: `listen` creates its fresh channel here -/
  nextId : Nat
  /-- whether the `Events.run` loop is still running (register/unregister
      channels not yet closed) -/
  running : Bool

/-- Source constant `EVENTS_BUFFER = 100`. -/
def EVENTS_BUFFER : Nat := 100

/-- Go `make(chan Event, cap)`: fresh open empty buffered channel. -/
def mkChan (E : Type) (cap : Nat) : Chan E :=
  { buf := [], cap := cap, isClosed := false }

/-- Go `close(clientChan)` on the channel value itself. -/
def Chan.closeChan {E : Type} (ch : Chan E) : Chan E :=
  { ch with isClosed := true }

namespace World

variable {E : Type}

/-- Go `clientSet.register`: `clientSet[clientChan] = true` (map insert). -/
def register (s : World E) (c : Nat) : World E :=
  { s with clients := s.clients.insert c }

/-- Go `clientSet.unregister`: `delete(clientSet, clientChan)`. -/
def unregister (s : World E) (c : Nat) : World E :=
  { s with clients := s.clients.erase c }

/-- Go `clientSet.drop`: `close(clientChan); delete(clientSet, clientChan)`. -/
def drop (s : World E) (c : Nat) : World E :=
  { s with
    chans := Function.update s.chans c (s.chans c).closeChan
    clients := s.clients.erase c }

/-- Go `clientSet.send`: non-blocking `select` send; enqueue if the buffer has
room, otherwise the client has dropped behind and is dropped. -/
def send (s : World E) (c : Nat) (e : E) : World E :=
  if (s.chans c).buf.length < (s.chans c).cap then
    { s with
      chans := Function.update s.chans c
        { s.chans c with buf := (s.chans c).buf ++ [e] } }
  else
    s.drop c

/-- Go `clientSet.publish`: `for clientChan := range clientSet` do `send`.
Go map iteration order is unspecified; we iterate the registry list in
order — every property proved below is insensitive to the order because
each `send` touches only its own channel. -/
def publish (s : World E) (e : E) : World E :=
  s.clients.foldl (fun t c => t.send c e) s

/-- Go `clientSet.close`: drop every registered client. -/
def closeAll (s : World E) : World E :=
  s.clients.foldl (fun t c => t.drop c) s

end World

/-- The three message kinds the `Events.run` select loop accepts, plus the
closure of the `EventPush` source channel. -/
inductive Msg (E : Type) where
  | register (c : Nat)
  | unregister (c : Nat)
  | event (e : E)
  | sourceClosed
  deriving Repr, DecidableEq

/-- One iteration of the `Events.run` select loop.  On `sourceClosed` the
loop returns: the deferred `clients.close()` drops every client and the
deferred `close(registerChan)`/`close(unregisterChan)` mark the loop dead.
A dead loop processes nothing. -/
def runStep {E : Type} (s : World E) (m : Msg E) : World E :=
  if s.running then
    match m with
    | .register c => s.register c
    | .unregister c => s.unregister c
    | .event e => s.publish e
    | .sourceClosed => { s.closeAll with running := false }
  else
    s

/-- The loop processing a whole sequence of messages in order. -/
def run {E : Type} (s : World E) (ms : List (Msg E)) : World E :=
  ms.foldl runStep s

/-- Events published on the source, in loop order, extracted from a
message trace. -/
def eventsOf {E : Type} (ms : List (Msg E)) : List E :=
  ms.filterMap (fun m => match m with | .event e => some e | _ => none)

/-- Go `EventConfig`: the optional `StateFunc` snapshot provider.  (The
`EventPush` source channel is represented by the message traces fed to
`run`.) -/
structure EventConfig (E : Type) where
  StateFunc : Option (Unit → E)

/-- Go `Events.state`: pull current state from the provider, or the default
`struct\x7b\x7d\x7b\x7d` value if none configured. -/
def Events.state {E : Type} [Inhabited E] (cfg : EventConfig E) : E :=
  match cfg.StateFunc with
  | some f => f ()
  | none => default

/-- Go runtime faults that the channel operations can raise. -/
inductive GoPanic where
  | sendOnClosedChannel
  | closeOfClosedChannel
  deriving Repr, DecidableEq

/-- Go `Events.listen`: allocate a fresh channel of capacity `EVENTS_BUFFER`,
send it on `registerChan` (blocking until the loop accepts it — the
rendezvous on the unbuffered channel is modelled as the loop processing
the registration immediately), and return `events.state()` with the
channel.  If the loop has exited, the send on the closed `registerChan`
panics. -/
def Events.listen {E : Type} [Inhabited E] (cfg : EventConfig E)
    (s : World E) : Except GoPanic (E × Nat × World E) :=
  if s.running then
    let c := s.nextId
    let s₁ : World E :=
      { s with
        chans := Function.update s.chans c (mkChan E EVENTS_BUFFER)
        nextId := s.nextId + 1 }
    Except.ok (Events.state cfg, c, s₁.register c)
  else
    Except.error GoPanic.sendOnClosedChannel

/-- Go `Events.stop`: send the client channel on `unregisterChan` (the loop
unregisters it); panics with send-on-closed-channel if the loop has
exited. -/
def Events.stop {E : Type} (s : World E) (c : Nat) :
    Except GoPanic (World E) :=
  if s.running then
    Except.ok (s.unregister c)
  else
    Except.error GoPanic.sendOnClosedChannel

/-- Well-formedness of the loop-owned state: the registry is a set (no
duplicate keys, as a Go map), every registered channel is open, and every
registered channel id was allocated. -/
def WF {E : Type} (s : World E) : Prop :=
  s.clients.Nodup ∧
  (∀ c ∈ s.clients, (s.chans c).isClosed = false) ∧
  (∀ c ∈ s.clients, c < s.nextId)

instance {E : Type} (s : World E) : Decidable (WF s) := by
  unfold WF; infer_instance

/-- Function `clientSet.send` with the Go runtime faults made explicit: a select
send on a closed channel panics; when the channel is open neither the
enqueue nor the fallback `drop` (which closes an open channel) can
panic. -/
def sendChecked {E : Type} (s : World E) (c : Nat) (e : E) :
    Except GoPanic (World E) :=
  if (s.chans c).isClosed then Except.error GoPanic.sendOnClosedChannel
  else Except.ok (s.send c e)

/-- Function `clientSet.drop` with the Go runtime fault made explicit: `close` of a
closed channel panics. -/
def dropChecked {E : Type} (s : World E) (c : Nat) :
    Except GoPanic (World E) :=
  if (s.chans c).isClosed then Except.error GoPanic.closeOfClosedChannel
  else Except.ok (s.drop c)

/-- Function `clientSet.publish` with runtime faults made explicit. -/
def publishChecked {E : Type} (s : World E) (e : E) :
    Except GoPanic (World E) :=
  s.clients.foldlM (fun t c => sendChecked t c e) s

/-- Function `clientSet.close` with runtime faults made explicit. -/
def closeAllChecked {E : Type} (s : World E) : Except GoPanic (World E) :=
  s.clients.foldlM (fun t c => dropChecked t c) s

/-- Whole-system operations: the public API calls plus the actions of the
producer, as they reach the control loop. -/
inductive Op (E : Type) where
  | subscribe
  | stopClient (c : Nat)
  | publishEvent (e : E)
  | sourceClose
  deriving Repr

/-- Effect of one whole-system operation on the loop state.  A `listen` or
`stop` issued after the loop exited panics in the calling goroutine and
leaves the loop state unchanged. -/
def opStep {E : Type} [Inhabited E] (cfg : EventConfig E) (s : World E) :
    Op E → World E
  | .subscribe =>
      match Events.listen cfg s with
      | .ok (_, _, s') => s'
      | .error _ => s
  | .stopClient c =>
      match Events.stop s c with
      | .ok s' => s'
      | .error _ => s
  | .publishEvent e => runStep s (.event e)
  | .sourceClose => runStep s .sourceClosed

/-- A whole-system run. -/
def exec {E : Type} [Inhabited E] (cfg : EventConfig E) (s : World E)
    (ops : List (Op E)) : World E :=
  ops.foldl (opStep cfg) s

/-- Go `eventsClient.serveWebsocket`: the transport adapter first sends the
snapshot, then forwards each event read from the client channel in FIFO
order.  Its output, given the snapshot and the queue contents it will
read, is the snapshot followed by the buffered events. -/
def wsOutput {E : Type} (st : E) (buf : List E) : List E :=
  st :: buf

namespace World

variable {E : Type}

theorem send_chans_ne (s : World E) {c c' : Nat} (e : E) (h : c' ≠ c) :
    (s.send c e).chans c' = s.chans c' := by
  unfold send drop
  split <;> simp [Function.update_noteq h]

theorem drop_chans_ne (s : World E) {c c' : Nat} (h : c' ≠ c) :
    (s.drop c).chans c' = s.chans c' := by
  unfold drop
  simp [Function.update_noteq h]

theorem send_mem_ne (s : World E) {c c' : Nat} (e : E) (h : c' ≠ c) :
    c' ∈ (s.send c e).clients ↔ c' ∈ s.clients := by
  unfold send drop
  split
  · simp
  · simp [List.mem_erase_of_ne h]

theorem drop_mem_ne (s : World E) {c c' : Nat} (h : c' ≠ c) :
    c' ∈ (s.drop c).clients ↔ c' ∈ s.clients := by
  unfold drop
  simp [List.mem_erase_of_ne h]

theorem send_clients_sub (s : World E) (c : Nat) (e : E) :
    (s.send c e).clients ⊆ s.clients := by
  unfold send drop
  split
  · simp
  · exact fun x hx => List.mem_of_mem_erase hx

theorem send_nodup (s : World E) (c : Nat) (e : E)
    (h : s.clients.Nodup) : (s.send c e).clients.Nodup := by
  unfold send drop
  split
  · simpa using h
  · simpa using h.erase c

theorem drop_nodup (s : World E) (c : Nat)
    (h : s.clients.Nodup) : (s.drop c).clients.Nodup := by
  unfold drop
  simpa using h.erase c

theorem send_running (s : World E) (c : Nat) (e : E) :
    (s.send c e).running = s.running := by
  unfold send drop
  split <;> rfl

theorem send_nextId (s : World E) (c : Nat) (e : E) :
    (s.send c e).nextId = s.nextId := by
  unfold send drop
  split <;> rfl

theorem drop_running (s : World E) (c : Nat) :
    (s.drop c).running = s.running := rfl

theorem drop_nextId (s : World E) (c : Nat) :
    (s.drop c).nextId = s.nextId := rfl

end World

/-- The fold inside `clientSet.publish`, as a standalone function of the
iteration list. -/
def sendFold {E : Type} (e : E) (t : World E) (l : List Nat) : World E :=
  l.foldl (fun u d => u.send d e) t

/-- The fold inside `clientSet.close`, as a standalone function of the
iteration list. -/
def dropFold {E : Type} (t : World E) (l : List Nat) : World E :=
  l.foldl (fun u d => u.drop d) t

theorem publish_eq_sendFold {E : Type} (s : World E) (e : E) :
    s.publish e = sendFold e s s.clients := rfl

theorem closeAll_eq_dropFold {E : Type} (s : World E) :
    s.closeAll = dropFold s s.clients := rfl

theorem sendFold_frame {E : Type} (e : E) :
    ∀ (l : List Nat) (t : World E) (c : Nat), c ∉ l →
      (sendFold e t l).chans c = t.chans c ∧
      (c ∈ (sendFold e t l).clients ↔ c ∈ t.clients) := by
  intro l
  induction l with
  | nil => intro t c _; exact ⟨rfl, Iff.rfl⟩
  | cons d l ih =>
      intro t c hc
      have hne : c ≠ d := fun h => hc (h ▸ List.mem_cons_self d l)
      have hcl : c ∉ l := fun h => hc (List.mem_cons_of_mem d h)
      have h := ih (t.send d e) c hcl
      refine ⟨?_, ?_⟩
      · exact h.1.trans (t.send_chans_ne e hne)
      · exact h.2.trans (t.send_mem_ne e hne)

theorem dropFold_frame {E : Type} :
    ∀ (l : List Nat) (t : World E) (c : Nat), c ∉ l →
      (dropFold t l).chans c = t.chans c ∧
      (c ∈ (dropFold t l).clients ↔ c ∈ t.clients) := by
  intro l
  induction l with
  | nil => intro t c _; exact ⟨rfl, Iff.rfl⟩
  | cons d l ih =>
      intro t c hc
      have hne : c ≠ d := fun h => hc (h ▸ List.mem_cons_self d l)
      have hcl : c ∉ l := fun h => hc (List.mem_cons_of_mem d h)
      have h := ih (t.drop d) c hcl
      refine ⟨?_, ?_⟩
      · exact h.1.trans (t.drop_chans_ne hne)
      · exact h.2.trans (t.drop_mem_ne hne)

theorem sendFold_running {E : Type} (e : E) :
    ∀ (l : List Nat) (t : World E), (sendFold e t l).running = t.running := by
  intro l
  induction l with
  | nil => intro t; rfl
  | cons d l ih => intro t; exact (ih (t.send d e)).trans (t.send_running d e)

theorem sendFold_nextId {E : Type} (e : E) :
    ∀ (l : List Nat) (t : World E), (sendFold e t l).nextId = t.nextId := by
  intro l
  induction l with
  | nil => intro t; rfl
  | cons d l ih => intro t; exact (ih (t.send d e)).trans (t.send_nextId d e)

theorem sendFold_clients_sub {E : Type} (e : E) :
    ∀ (l : List Nat) (t : World E), (sendFold e t l).clients ⊆ t.clients := by
  intro l
  induction l with
  | nil => intro t; exact fun _ h => h
  | cons d l ih =>
      intro t
      exact (ih (t.send d e)).trans (t.send_clients_sub d e)

theorem sendFold_nodup {E : Type} (e : E) :
    ∀ (l : List Nat) (t : World E), t.clients.Nodup →
      (sendFold e t l).clients.Nodup := by
  intro l
  induction l with
  | nil => intro t h; exact h
  | cons d l ih => intro t h; exact ih (t.send d e) (t.send_nodup d e h)

theorem send_chans_self_room {E : Type} (s : World E) (c : Nat) (e : E)
    (h : (s.chans c).buf.length < (s.chans c).cap) :
    (s.send c e).chans c =
      { s.chans c with buf := (s.chans c).buf ++ [e] } := by
  unfold World.send
  rw [if_pos h]
  simp

theorem send_clients_room {E : Type} (s : World E) (c : Nat) (e : E)
    (h : (s.chans c).buf.length < (s.chans c).cap) :
    (s.send c e).clients = s.clients := by
  unfold World.send
  rw [if_pos h]

theorem send_chans_self_full {E : Type} (s : World E) (c : Nat) (e : E)
    (h : ¬ (s.chans c).buf.length < (s.chans c).cap) :
    (s.send c e).chans c = (s.chans c).closeChan := by
  unfold World.send World.drop
  rw [if_neg h]
  simp

theorem send_clients_full {E : Type} (s : World E) (c : Nat) (e : E)
    (h : ¬ (s.chans c).buf.length < (s.chans c).cap) :
    (s.send c e).clients = s.clients.erase c := by
  unfold World.send World.drop
  rw [if_neg h]

/-- Per-client effect of the `publish` fold: a client in the iteration
list with room in its buffer receives the event appended and stays
registered; a client with a full buffer is closed and removed. -/
theorem sendFold_spec {E : Type} (e : E) :
    ∀ (l : List Nat) (t : World E) (c : Nat),
      l.Nodup → t.clients.Nodup → c ∈ l → c ∈ t.clients →
      ((t.chans c).buf.length < (t.chans c).cap →
        (sendFold e t l).chans c =
          { t.chans c with buf := (t.chans c).buf ++ [e] } ∧
        c ∈ (sendFold e t l).clients) ∧
      (¬ (t.chans c).buf.length < (t.chans c).cap →
        (sendFold e t l).chans c = (t.chans c).closeChan ∧
        c ∉ (sendFold e t l).clients) := by
  intro l
  induction l with
  | nil => intro t c _ _ hc _; exact absurd hc (List.not_mem_nil c)
  | cons d l ih =>
      intro t c hnd hcl hmem hct
      have hdl : d ∉ l := (List.nodup_cons.mp hnd).1
      have hln : l.Nodup := (List.nodup_cons.mp hnd).2
      have hstep : sendFold e t (d :: l) = sendFold e (t.send d e) l := rfl
      rcases List.mem_cons.mp hmem with hcd | hcl2
      · subst hcd
        have hframe := sendFold_frame e l (t.send c e) c hdl
        constructor
        · intro hroom
          refine ⟨?_, ?_⟩
          · rw [hstep, hframe.1, send_chans_self_room t c e hroom]
          · rw [hstep]
            refine hframe.2.mpr ?_
            rw [send_clients_room t c e hroom]
            exact hct
        · intro hfull
          refine ⟨?_, ?_⟩
          · rw [hstep, hframe.1, send_chans_self_full t c e hfull]
          · rw [hstep]
            intro hmem2
            have := hframe.2.mp hmem2
            rw [send_clients_full t c e hfull] at this
            exact (List.Nodup.mem_erase_iff hcl).mp this |>.1 rfl
      · have hne : c ≠ d := fun h => hdl (h ▸ hcl2)
        have hch : (t.send d e).chans c = t.chans c := t.send_chans_ne e hne
        have hmem2 : c ∈ (t.send d e).clients := (t.send_mem_ne e hne).mpr hct
        have hnd2 : (t.send d e).clients.Nodup := t.send_nodup d e hcl
        have h := ih (t.send d e) c hln hnd2 hcl2 hmem2
        rw [hch] at h
        rw [hstep]
        exact h

/-- C1: When the control loop delivers a published event, for every
queue in the registry the loop attempts a non-blocking enqueue: a queue
with free capacity gets the event appended and stays registered; a full
queue means that subscriber alone is closed and removed, while every
other registered subscriber with capacity still receives the event.
`publish` is a total function (it cannot fail) and leaves the loop
running, so nothing is ever reported to the producer. -/
theorem publish_delivers_or_drops {E : Type} (s : World E) (e : E)
    (hwf : WF s) :
    (s.publish e).running = s.running ∧
    ∀ c ∈ s.clients,
      ((s.chans c).buf.length < (s.chans c).cap →
        (s.publish e).chans c =
          { s.chans c with buf := (s.chans c).buf ++ [e] } ∧
        c ∈ (s.publish e).clients) ∧
      (¬ (s.chans c).buf.length < (s.chans c).cap →
        (s.publish e).chans c = (s.chans c).closeChan ∧
        c ∉ (s.publish e).clients) := by
  rw [publish_eq_sendFold]
  refine ⟨sendFold_running e s.clients s, ?_⟩
  intro c hc
  exact sendFold_spec e s.clients s c hwf.1 hwf.1 hc hc

/-- A two-subscriber world: client 0 has a full queue of capacity 2,
client 1 an empty one. -/
def wPub : World Nat :=
  { chans := fun i =>
      if i = 0 then { buf := [10, 11], cap := 2, isClosed := false }
      else { buf := [], cap := 2, isClosed := false }
    clients := [0, 1]
    nextId := 2
    running := true }

theorem publish_delivers_or_drops_witness :
    ((wPub.publish 7).chans 0 = (wPub.chans 0).closeChan ∧
      0 ∉ (wPub.publish 7).clients) ∧
    ((wPub.publish 7).chans 1 =
      { wPub.chans 1 with buf := (wPub.chans 1).buf ++ [7] } ∧
      1 ∈ (wPub.publish 7).clients) := by
  have h := publish_delivers_or_drops wPub 7 (by decide)
  exact ⟨(h.2 0 (by decide)).2 (by decide), (h.2 1 (by decide)).1 (by decide)⟩

/-- C4: processing an `unregister` message for a handle absent from the
registry leaves the whole loop state unchanged (no error, no other side
effect), and processing an `unregister` twice equals processing it
once. -/
theorem unregister_idempotent {E : Type} (s : World E) (c : Nat)
    (h : s.clients.Nodup) :
    (c ∉ s.clients → runStep s (Msg.unregister c) = s) ∧
    runStep (runStep s (Msg.unregister c)) (Msg.unregister c) =
      runStep s (Msg.unregister c) := by
  obtain ⟨ch, cl, ni, ru⟩ := s
  have hn : cl.Nodup := h
  unfold runStep World.unregister
  cases ru
  · simp
  · simp only [if_true]
    constructor
    · intro hc
      have hc' : c ∉ cl := hc
      rw [List.erase_of_not_mem hc']
    · rw [List.erase_of_not_mem (hn.not_mem_erase)]

theorem unregister_idempotent_witness :
    (3 ∉ wPub.clients → runStep wPub (Msg.unregister 3) = wPub) ∧
    runStep (runStep wPub (Msg.unregister 3)) (Msg.unregister 3) =
      runStep wPub (Msg.unregister 3) :=
  unregister_idempotent wPub 3 (by decide)

/-- The loop state after a successful `Events.listen`: the fresh channel
is allocated at `s.nextId` and registered. -/
def listenWorld {E : Type} (s : World E) : World E :=
  ({ s with
      chans := Function.update s.chans s.nextId (mkChan E EVENTS_BUFFER)
      nextId := s.nextId + 1 }).register s.nextId

theorem listen_eq {E : Type} [Inhabited E] (cfg : EventConfig E)
    (s : World E) (hr : s.running = true) :
    Events.listen cfg s =
      Except.ok (Events.state cfg, s.nextId, listenWorld s) := by
  unfold Events.listen listenWorld
  rw [if_pos hr]

/-- C5: every `listen` call allocates a fresh bounded queue of capacity
exactly `EVENTS_BUFFER = 100`, registers it with the loop (the caller
blocks on the unbuffered `registerChan` until the loop accepts the
registration, modelled by the registration being processed before
`listen` returns), and returns the current snapshot — the configured
value of `StateFunc`, or the default value when none is configured —
together with the handle to the new queue. -/
theorem listen_spec {E : Type} [Inhabited E] (cfg : EventConfig E)
    (s : World E) (hwf : WF s) (hr : s.running = true) :
    Events.listen cfg s =
      Except.ok (Events.state cfg, s.nextId, listenWorld s) ∧
    (listenWorld s).chans s.nextId =
      { buf := [], cap := EVENTS_BUFFER, isClosed := false } ∧
    EVENTS_BUFFER = 100 ∧
    s.nextId ∉ s.clients ∧
    s.nextId ∈ (listenWorld s).clients ∧
    (∀ c : Nat, c ≠ s.nextId → (listenWorld s).chans c = s.chans c) ∧
    (∀ f : Unit → E, cfg.StateFunc = some f → Events.state cfg = f ()) ∧
    (cfg.StateFunc = none → Events.state cfg = (default : E)) := by
  refine ⟨listen_eq cfg s hr, ?_, rfl, ?_, ?_, ?_, ?_, ?_⟩
  · unfold listenWorld World.register
    exact Function.update_same s.nextId (mkChan E EVENTS_BUFFER) s.chans
  · intro hmem
    exact absurd (hwf.2.2 s.nextId hmem) (lt_irrefl s.nextId)
  · unfold listenWorld World.register
    exact List.mem_insert_self s.nextId _
  · intro c hc
    unfold listenWorld World.register
    exact Function.update_noteq hc (mkChan E EVENTS_BUFFER) s.chans
  · intro f hf
    unfold Events.state
    rw [hf]
  · intro hf
    unfold Events.state
    rw [hf]

/-- A provider returning 42. -/
def cfgW : EventConfig Nat := { StateFunc := some (fun _ => 42) }

theorem listen_spec_witness :
    Events.listen cfgW wPub =
      Except.ok (Events.state cfgW, wPub.nextId, listenWorld wPub) ∧
    (listenWorld wPub).chans wPub.nextId =
      { buf := [], cap := EVENTS_BUFFER, isClosed := false } ∧
    EVENTS_BUFFER = 100 ∧
    wPub.nextId ∉ wPub.clients ∧
    wPub.nextId ∈ (listenWorld wPub).clients ∧
    (∀ c : Nat, c ≠ wPub.nextId →
      (listenWorld wPub).chans c = wPub.chans c) ∧
    (∀ f : Unit → Nat, cfgW.StateFunc = some f →
      Events.state cfgW = f ()) ∧
    (cfgW.StateFunc = none → Events.state cfgW = (default : Nat)) :=
  listen_spec cfgW wPub (by decide) (by decide)

/-- C6: the core caches no copy of the state.  Processing an event
message changes only the subscriber queues and (via drops) the registry:
the allocation counter and the running flag are untouched, and channels
of unregistered ids are untouched.  The snapshot handed to a subscriber
is `Events.state cfg` — computed on demand from the optional provider at
subscribe time, a value independent of the loop state and hence never
taken from anything the core stored from past events. -/
theorem state_not_cached {E : Type} [Inhabited E] (cfg : EventConfig E)
    (s : World E) (e : E) :
    (s.publish e).nextId = s.nextId ∧
    (s.publish e).running = s.running ∧
    (∀ c : Nat, c ∉ s.clients → (s.publish e).chans c = s.chans c) ∧
    (∀ t : World E, t.running = true →
      Events.listen cfg t =
        Except.ok (Events.state cfg, t.nextId, listenWorld t)) := by
  rw [publish_eq_sendFold]
  refine ⟨sendFold_nextId e s.clients s, sendFold_running e s.clients s,
    ?_, ?_⟩
  · intro c hc
    exact (sendFold_frame e s.clients s c hc).1
  · intro t ht
    exact listen_eq cfg t ht

theorem state_not_cached_witness :
    (wPub.publish 7).nextId = wPub.nextId ∧
    (wPub.publish 7).running = wPub.running ∧
    (∀ c : Nat, c ∉ wPub.clients → (wPub.publish 7).chans c = wPub.chans c) ∧
    (∀ t : World Nat, t.running = true →
      Events.listen cfgW t =
        Except.ok (Events.state cfgW, t.nextId, listenWorld t)) :=
  state_not_cached cfgW wPub 7

theorem drop_chans_self {E : Type} (s : World E) (c : Nat) :
    (s.drop c).chans c = (s.chans c).closeChan := by
  unfold World.drop
  simp

theorem drop_clients {E : Type} (s : World E) (c : Nat) :
    (s.drop c).clients = s.clients.erase c := rfl

/-- Per-client effect of the `close` fold: every client in the iteration
list is closed and removed. -/
theorem dropFold_spec {E : Type} :
    ∀ (l : List Nat) (t : World E) (c : Nat),
      l.Nodup → t.clients.Nodup → c ∈ l →
      (dropFold t l).chans c = (t.chans c).closeChan ∧
      c ∉ (dropFold t l).clients := by
  intro l
  induction l with
  | nil => intro t c _ _ hc; exact absurd hc (List.not_mem_nil c)
  | cons d l ih =>
      intro t c hnd hcl hmem
      have hdl : d ∉ l := (List.nodup_cons.mp hnd).1
      have hln : l.Nodup := (List.nodup_cons.mp hnd).2
      have hstep : dropFold t (d :: l) = dropFold (t.drop d) l := rfl
      rcases List.mem_cons.mp hmem with hcd | hcl2
      · subst hcd
        have hframe := dropFold_frame l (t.drop c) c hdl
        refine ⟨?_, ?_⟩
        · rw [hstep, hframe.1, drop_chans_self t c]
        · rw [hstep]
          intro hmem2
          have := hframe.2.mp hmem2
          rw [drop_clients t c] at this
          exact (List.Nodup.mem_erase_iff hcl).mp this |>.1 rfl
      · have hne : c ≠ d := fun h => hdl (h ▸ hcl2)
        have hch : (t.drop d).chans c = t.chans c := t.drop_chans_ne hne
        have hnd2 : (t.drop d).clients.Nodup := t.drop_nodup d hcl
        have h := ih (t.drop d) c hln hnd2 hcl2
        rw [hch] at h
        rw [hstep]
        exact h

/-- C3 (amended): when the event source closes, the loop exits: it
force-closes and removes every remaining registered subscriber (so each
blocked reader observes closure), and afterwards any `listen` or `stop`
call panics with a send on the closed register/unregister channel — a Go
runtime fault, not a typed error (the source has no `BroadcasterClosed`
value; its own comment reads `XXX: panics with send on closed chan if
server has stopped`). -/
theorem source_closed_spec {E : Type} [Inhabited E] (cfg : EventConfig E)
    (s : World E) (hwf : WF s) (hr : s.running = true) :
    (runStep s Msg.sourceClosed).running = false ∧
    (∀ c ∈ s.clients,
      (runStep s Msg.sourceClosed).chans c = (s.chans c).closeChan ∧
      c ∉ (runStep s Msg.sourceClosed).clients) ∧
    (∀ t : World E, t.running = false →
      Events.listen cfg t = Except.error GoPanic.sendOnClosedChannel ∧
      ∀ c : Nat, Events.stop t c = Except.error GoPanic.sendOnClosedChannel) := by
  have hstep : runStep s Msg.sourceClosed =
      { s.closeAll with running := false } := by
    unfold runStep
    rw [if_pos hr]
  refine ⟨by rw [hstep], ?_, ?_⟩
  · intro c hc
    have h := dropFold_spec s.clients s c hwf.1 hwf.1 hc
    rw [closeAll_eq_dropFold] at hstep
    rw [hstep]
    exact h
  · intro t ht
    constructor
    · unfold Events.listen
      rw [ht]
      rfl
    · intro c
      unfold Events.stop
      rw [ht]
      rfl

theorem source_closed_spec_witness :
    (runStep wPub Msg.sourceClosed).running = false ∧
    (∀ c ∈ wPub.clients,
      (runStep wPub Msg.sourceClosed).chans c = (wPub.chans c).closeChan ∧
      c ∉ (runStep wPub Msg.sourceClosed).clients) ∧
    (∀ t : World Nat, t.running = false →
      Events.listen cfgW t = Except.error GoPanic.sendOnClosedChannel ∧
      ∀ c : Nat, Events.stop t c =
        Except.error GoPanic.sendOnClosedChannel) :=
  source_closed_spec cfgW wPub (by decide) (by decide)

/-- Loop state after the `Events.run` loop has exited. -/
def wDead : World Nat :=
  { chans := fun _ => mkChan Nat EVENTS_BUFFER
    clients := []
    nextId := 0
    running := false }

/-- Counterexample to C3 as stated: a `stop` (or `listen`) call issued
after the control loop has exited is not surfaced as an explicit
`BroadcasterClosed` error — no such error value exists anywhere in the
source — but is a send on a closed channel, i.e. an unrecoverable Go
runtime panic. -/
theorem stop_after_exit_panics :
    Events.stop wDead 0 = Except.error GoPanic.sendOnClosedChannel ∧
    Events.listen cfgW wDead = Except.error GoPanic.sendOnClosedChannel :=
  ⟨rfl, rfl⟩

theorem runStep_register {E : Type} (s : World E) (d : Nat)
    (hr : s.running = true) :
    runStep s (Msg.register d) = s.register d := by
  unfold runStep
  rw [if_pos hr]

theorem runStep_unregister {E : Type} (s : World E) (d : Nat)
    (hr : s.running = true) :
    runStep s (Msg.unregister d) = s.unregister d := by
  unfold runStep
  rw [if_pos hr]

theorem runStep_event {E : Type} (s : World E) (e : E)
    (hr : s.running = true) :
    runStep s (Msg.event e) = s.publish e := by
  unfold runStep
  rw [if_pos hr]

/-- The key trace lemma behind C2 and C8: a subscriber that is registered,
whose queue has capacity for everything still to be published, and that
neither unregisters nor sees the source close, ends the trace with its
queue holding exactly its old contents followed by every published event
in loop order, and is still registered. -/
theorem run_observes_all {E : Type} :
    ∀ (ms : List (Msg E)) (s : World E) (c : Nat),
      s.clients.Nodup → c ∈ s.clients → s.running = true →
      Msg.unregister c ∉ ms → Msg.sourceClosed ∉ ms →
      (s.chans c).buf.length + (eventsOf ms).length ≤ (s.chans c).cap →
      (run s ms).chans c =
        { s.chans c with buf := (s.chans c).buf ++ eventsOf ms } ∧
      c ∈ (run s ms).clients ∧
      (run s ms).clients.Nodup ∧
      (run s ms).running = true := by
  intro ms
  induction ms with
  | nil =>
      intro s c hnd hc hr _ _ _
      refine ⟨?_, hc, hnd, hr⟩
      show s.chans c = { s.chans c with buf := (s.chans c).buf ++ eventsOf [] }
      simp [eventsOf]
  | cons m ms ih =>
      intro s c hnd hc hr hnu hns hcap
      have hnu2 : Msg.unregister c ∉ ms := fun h => hnu (List.mem_cons_of_mem m h)
      have hns2 : Msg.sourceClosed ∉ ms := fun h => hns (List.mem_cons_of_mem m h)
      have hstep : run s (m :: ms) = run (runStep s m) ms := rfl
      cases m with
      | register d =>
          have hev : eventsOf (Msg.register d :: ms) = eventsOf ms := rfl
          rw [hstep, runStep_register s d hr]
          have h := ih (s.register d) c (hnd.insert) ?_ hr hnu2 hns2 ?_
          · exact h
          · exact List.mem_insert_of_mem hc
          · rw [hev] at hcap
            exact hcap
      | unregister d =>
          have hne : c ≠ d := by
            intro h
            exact hnu (h ▸ List.mem_cons_self (Msg.unregister d) ms)
          have hev : eventsOf (Msg.unregister d :: ms) = eventsOf ms := rfl
          rw [hstep, runStep_unregister s d hr]
          have h := ih (s.unregister d) c (hnd.erase d) ?_ hr hnu2 hns2 ?_
          · exact h
          · exact (List.mem_erase_of_ne hne).mpr hc
          · rw [hev] at hcap
            exact hcap
      | event e =>
          have hev : eventsOf (Msg.event e :: ms) = e :: eventsOf ms := rfl
          rw [hev] at hcap
          have hroom : (s.chans c).buf.length < (s.chans c).cap := by
            have : (s.chans c).buf.length + 1 ≤ (s.chans c).cap := by
              calc (s.chans c).buf.length + 1
                  ≤ (s.chans c).buf.length + (1 + (eventsOf ms).length) :=
                    Nat.add_le_add_left (Nat.le_add_right 1 _) _
                _ = (s.chans c).buf.length + (e :: eventsOf ms).length := by
                    simp [Nat.add_comm]
                _ ≤ (s.chans c).cap := hcap
            exact this
          rw [hstep, runStep_event s e hr]
          have hpub := sendFold_spec e s.clients s c hnd hnd hc hc
          have hd := hpub.1 hroom
          rw [← publish_eq_sendFold] at hd
          have hnd2 : (s.publish e).clients.Nodup := by
            rw [publish_eq_sendFold]
            exact sendFold_nodup e s.clients s hnd
          have hr2 : (s.publish e).running = true := by
            rw [publish_eq_sendFold, sendFold_running]
            exact hr
          have hcap2 : ((s.publish e).chans c).buf.length +
              (eventsOf ms).length ≤ ((s.publish e).chans c).cap := by
            rw [hd.1]
            simp only [List.length_append, List.length_cons,
              List.length_nil] at hcap ⊢
            omega
          have h := ih (s.publish e) c hnd2 hd.2 hr2 hnu2 hns2 hcap2
          refine ⟨?_, h.2.1, h.2.2.1, h.2.2.2⟩
          rw [h.1, hd.1]
          simp [hev]
      | sourceClosed =>
          exact absurd (List.mem_cons_self Msg.sourceClosed ms) hns

/-- Shared helper: the queue allocated by `listen` holds, after any
following trace that neither unregisters it nor closes the source and
whose events fit in the buffer, exactly the events published after
registration, in order, and stays registered. -/
theorem listen_run_buf {E : Type} (s : World E) (ms : List (Msg E))
    (hwf : WF s) (hr : s.running = true)
    (hnu : Msg.unregister s.nextId ∉ ms)
    (hns : Msg.sourceClosed ∉ ms)
    (hcap : (eventsOf ms).length ≤ EVENTS_BUFFER) :
    ((run (listenWorld s) ms).chans s.nextId).buf = eventsOf ms ∧
    s.nextId ∈ (run (listenWorld s) ms).clients := by
  have hch : (listenWorld s).chans s.nextId = mkChan E EVENTS_BUFFER := by
    unfold listenWorld World.register
    exact Function.update_same s.nextId (mkChan E EVENTS_BUFFER) s.chans
  have hnd : (listenWorld s).clients.Nodup := by
    unfold listenWorld World.register
    exact hwf.1.insert
  have hmem : s.nextId ∈ (listenWorld s).clients := by
    unfold listenWorld World.register
    exact List.mem_insert_self s.nextId _
  have hrun : (listenWorld s).running = true := hr
  have hcap2 : ((listenWorld s).chans s.nextId).buf.length +
      (eventsOf ms).length ≤ ((listenWorld s).chans s.nextId).cap := by
    rw [hch]
    simpa [mkChan] using hcap
  have h := run_observes_all ms (listenWorld s) s.nextId hnd hmem hrun
    hnu hns hcap2
  refine ⟨?_, h.2.1⟩
  rw [h.1, hch]
  simp [mkChan]

/-- C2: a subscriber whose queue never fills while registered (its fresh
buffer has capacity for every event of the trace) observes, in its queue,
exactly the sequence of events published in loop order after its
registration: no loss, no reorder, no duplication; and it is still
registered at the end. -/
theorem subscriber_observes_publish_order {E : Type} (s : World E)
    (ms : List (Msg E)) (hwf : WF s) (hr : s.running = true)
    (hnu : Msg.unregister s.nextId ∉ ms)
    (hns : Msg.sourceClosed ∉ ms)
    (hcap : (eventsOf ms).length ≤ EVENTS_BUFFER) :
    ((run (listenWorld s) ms).chans s.nextId).buf = eventsOf ms ∧
    s.nextId ∈ (run (listenWorld s) ms).clients :=
  listen_run_buf s ms hwf hr hnu hns hcap

/-- A trace with three published events, an unregistration of another
subscriber, and a registration of another subscriber. -/
def msW : List (Msg Nat) :=
  [Msg.event 1, Msg.unregister 0, Msg.event 2, Msg.register 5, Msg.event 3]

theorem subscriber_observes_publish_order_witness :
    ((run (listenWorld wPub) msW).chans wPub.nextId).buf = eventsOf msW ∧
    wPub.nextId ∈ (run (listenWorld wPub) msW).clients :=
  subscriber_observes_publish_order wPub msW (by decide) (by decide)
    (by decide) (by decide) (by decide)

/-- C8: registration is an unconditional add — after the loop accepts the
registration the new queue is a registry member — and the queue then
receives every event published after registration (within capacity), so
the transport output, which sends the snapshot first, is the snapshot
strictly before every event published after registration completed. -/
theorem snapshot_before_live_events {E : Type} [Inhabited E]
    (cfg : EventConfig E) (s : World E) (ms : List (Msg E))
    (hwf : WF s) (hr : s.running = true)
    (hnu : Msg.unregister s.nextId ∉ ms)
    (hns : Msg.sourceClosed ∉ ms)
    (hcap : (eventsOf ms).length ≤ EVENTS_BUFFER) :
    Events.listen cfg s =
      Except.ok (Events.state cfg, s.nextId, listenWorld s) ∧
    s.nextId ∈ (listenWorld s).clients ∧
    wsOutput (Events.state cfg)
        ((run (listenWorld s) ms).chans s.nextId).buf =
      Events.state cfg :: eventsOf ms := by
  refine ⟨listen_eq cfg s hr, ?_, ?_⟩
  · unfold listenWorld World.register
    exact List.mem_insert_self s.nextId _
  · unfold wsOutput
    rw [(listen_run_buf s ms hwf hr hnu hns hcap).1]

theorem snapshot_before_live_events_witness :
    Events.listen cfgW wPub =
      Except.ok (Events.state cfgW, wPub.nextId, listenWorld wPub) ∧
    wPub.nextId ∈ (listenWorld wPub).clients ∧
    wsOutput (Events.state cfgW)
        ((run (listenWorld wPub) msW).chans wPub.nextId).buf =
      Events.state cfgW :: eventsOf msW :=
  snapshot_before_live_events cfgW wPub msW (by decide) (by decide)
    (by decide) (by decide) (by decide)

theorem dropFold_nextId {E : Type} :
    ∀ (l : List Nat) (t : World E), (dropFold t l).nextId = t.nextId := by
  intro l
  induction l with
  | nil => intro t; rfl
  | cons d l ih => intro t; exact (ih (t.drop d)).trans (t.drop_nextId d)

theorem dropFold_clients_sub {E : Type} :
    ∀ (l : List Nat) (t : World E), (dropFold t l).clients ⊆ t.clients := by
  intro l
  induction l with
  | nil => intro t; exact fun _ h => h
  | cons d l ih =>
      intro t
      refine (ih (t.drop d)).trans ?_
      rw [drop_clients]
      exact fun x hx => List.mem_of_mem_erase hx

theorem opStep_subscribe_running {E : Type} [Inhabited E]
    (cfg : EventConfig E) (s : World E) (hr : s.running = true) :
    opStep cfg s Op.subscribe = listenWorld s := by
  unfold opStep
  rw [listen_eq cfg s hr]

theorem opStep_subscribe_dead {E : Type} [Inhabited E]
    (cfg : EventConfig E) (s : World E) (hr : ¬ s.running = true) :
    opStep cfg s Op.subscribe = s := by
  unfold opStep Events.listen
  rw [if_neg hr]

theorem opStep_stop_running {E : Type} [Inhabited E]
    (cfg : EventConfig E) (s : World E) (d : Nat) (hr : s.running = true) :
    opStep cfg s (Op.stopClient d) = s.unregister d := by
  simp [opStep, Events.stop, hr]

theorem opStep_stop_dead {E : Type} [Inhabited E]
    (cfg : EventConfig E) (s : World E) (d : Nat) (hr : ¬ s.running = true) :
    opStep cfg s (Op.stopClient d) = s := by
  simp [opStep, Events.stop, hr]

theorem runStep_dead {E : Type} (s : World E) (m : Msg E)
    (hr : ¬ s.running = true) : runStep s m = s := by
  unfold runStep
  rw [if_neg hr]

/-- Calling `stop` on a handle that is no longer registered is a no-op: the loop
state is completely unchanged (and a `stop` after shutdown leaves it
unchanged too, the caller panicking instead). -/
theorem stop_noop {E : Type} [Inhabited E] (cfg : EventConfig E)
    (s : World E) (c : Nat) (hc : c ∉ s.clients) :
    opStep cfg s (Op.stopClient c) = s := by
  by_cases hr : s.running = true
  · rw [opStep_stop_running cfg s c hr]
    obtain ⟨ch, cl, ni, ru⟩ := s
    have hc' : c ∉ cl := hc
    unfold World.unregister
    rw [List.erase_of_not_mem hc']
  · exact opStep_stop_dead cfg s c hr

/-- Frame for one whole-system operation: an unregistered, allocated id
keeps its channel untouched, stays unregistered, stays allocated. -/
theorem opStep_frame {E : Type} [Inhabited E] (cfg : EventConfig E)
    (s : World E) (c : Nat) (op : Op E)
    (hc : c ∉ s.clients) (hn : c < s.nextId) :
    (opStep cfg s op).chans c = s.chans c ∧
    c ∉ (opStep cfg s op).clients ∧
    c < (opStep cfg s op).nextId := by
  cases op with
  | subscribe =>
      by_cases hr : s.running = true
      · rw [opStep_subscribe_running cfg s hr]
        refine ⟨?_, ?_, ?_⟩
        · unfold listenWorld World.register
          exact Function.update_noteq (Nat.ne_of_lt hn) _ _
        · unfold listenWorld World.register
          intro h
          rcases List.mem_insert_iff.mp h with h1 | h2
          · exact absurd h1 (Nat.ne_of_lt hn)
          · exact hc h2
        · show c < s.nextId + 1
          omega
      · rw [opStep_subscribe_dead cfg s hr]
        exact ⟨rfl, hc, hn⟩
  | stopClient d =>
      by_cases hr : s.running = true
      · rw [opStep_stop_running cfg s d hr]
        refine ⟨rfl, ?_, hn⟩
        intro h
        exact hc (List.mem_of_mem_erase h)
      · rw [opStep_stop_dead cfg s d hr]
        exact ⟨rfl, hc, hn⟩
  | publishEvent e =>
      by_cases hr : s.running = true
      · have hop : opStep cfg s (Op.publishEvent e) =
            sendFold e s s.clients := by
          show runStep s (Msg.event e) = sendFold e s s.clients
          rw [runStep_event s e hr, publish_eq_sendFold]
        rw [hop]
        have h := sendFold_frame e s.clients s c hc
        refine ⟨h.1, fun hm => hc (h.2.mp hm), ?_⟩
        rw [sendFold_nextId]
        exact hn
      · have hop : opStep cfg s (Op.publishEvent e) = s :=
          runStep_dead s (Msg.event e) hr
        rw [hop]
        exact ⟨rfl, hc, hn⟩
  | sourceClose =>
      by_cases hr : s.running = true
      · have hop : opStep cfg s Op.sourceClose =
            { dropFold s s.clients with running := false } := by
          show runStep s Msg.sourceClosed = _
          unfold runStep
          rw [if_pos hr, closeAll_eq_dropFold]
        rw [hop]
        have h := dropFold_frame s.clients s c hc
        refine ⟨h.1, fun hm => hc (h.2.mp hm), ?_⟩
        show c < (dropFold s s.clients).nextId
        rw [dropFold_nextId]
        exact hn
      · have hop : opStep cfg s Op.sourceClose = s :=
          runStep_dead s Msg.sourceClosed hr
        rw [hop]
        exact ⟨rfl, hc, hn⟩

theorem exec_frame {E : Type} [Inhabited E] (cfg : EventConfig E) :
    ∀ (ops : List (Op E)) (s : World E) (c : Nat),
      c ∉ s.clients → c < s.nextId →
      (exec cfg s ops).chans c = s.chans c ∧
      c ∉ (exec cfg s ops).clients ∧
      c < (exec cfg s ops).nextId := by
  intro ops
  induction ops with
  | nil => intro s c hc hn; exact ⟨rfl, hc, hn⟩
  | cons op ops ih =>
      intro s c hc hn
      have hstep : exec cfg s (op :: ops) = exec cfg (opStep cfg s op) ops :=
        rfl
      have h1 := opStep_frame cfg s c op hc hn
      have h2 := ih (opStep cfg s op) c h1.2.1 h1.2.2
      rw [hstep]
      exact ⟨h2.1.trans h1.1, h2.2.1, h2.2.2⟩

/-- C7: once the loop has closed and dropped a queue, no later operation
of any kind ever enqueues an event into it — its channel value, closed
flag included, never changes again across any sequence of subscribes,
stops, publishes and shutdowns — it never re-enters the registry, and a
subsequent unregister for it is a complete no-op. -/
theorem dropped_queue_stays_dropped {E : Type} [Inhabited E]
    (cfg : EventConfig E) (ops : List (Op E)) (s : World E) (c : Nat)
    (hclosed : (s.chans c).isClosed = true)
    (hc : c ∉ s.clients) (hn : c < s.nextId) :
    (exec cfg s ops).chans c = s.chans c ∧
    ((exec cfg s ops).chans c).isClosed = true ∧
    c ∉ (exec cfg s ops).clients ∧
    opStep cfg (exec cfg s ops) (Op.stopClient c) = exec cfg s ops := by
  have h := exec_frame cfg ops s c hc hn
  refine ⟨h.1, ?_, h.2.1, stop_noop cfg (exec cfg s ops) c h.2.1⟩
  rw [h.1]
  exact hclosed

/-- A world in which client 0 has already been dropped (closed, holding
two undelivered events) and client 1 is registered. -/
def wDrop : World Nat :=
  { chans := fun i =>
      if i = 0 then { buf := [10, 11], cap := 2, isClosed := true }
      else mkChan Nat 2
    clients := [1]
    nextId := 2
    running := true }

def opsW : List (Op Nat) :=
  [Op.subscribe, Op.publishEvent 7, Op.stopClient 0, Op.publishEvent 8,
    Op.sourceClose]

theorem dropped_queue_stays_dropped_witness :
    (exec cfgW wDrop opsW).chans 0 = wDrop.chans 0 ∧
    ((exec cfgW wDrop opsW).chans 0).isClosed = true ∧
    0 ∉ (exec cfgW wDrop opsW).clients ∧
    opStep cfgW (exec cfgW wDrop opsW) (Op.stopClient 0) =
      exec cfgW wDrop opsW :=
  dropped_queue_stays_dropped cfgW opsW wDrop 0 (by decide) (by decide)
    (by decide)

/-- A provider returning 99, for the capacity-2 scenario. -/
def cfg9 : EventConfig Nat := { StateFunc := some (fun _ => 99) }

/-- Capacity-2 scenario start: one registered subscriber (id 0) with an
empty queue of capacity 2 that is never drained. -/
def w9 : World Nat :=
  { chans := fun _ => { buf := [], cap := 2, isClosed := false }
    clients := [0]
    nextId := 1
    running := true }

/-- C9: with capacity 2 and an undrained subscriber, e1 and e2 fill the
queue with the subscriber still registered; e3 drops (closes and removes)
it; e4 with zero subscribers is a no-op on the whole loop state; a new
subscriber registering between e4 and e5 receives the snapshot current at
registration (the provider value) and then exactly e5 — no earlier
event — while the dropped queue still holds only e1, e2. -/
theorem scenario_capacity_two :
    ((run w9 [Msg.event 1]).chans 0).buf = [1] ∧
    0 ∈ (run w9 [Msg.event 1]).clients ∧
    ((run w9 [Msg.event 1, Msg.event 2]).chans 0).buf = [1, 2] ∧
    0 ∈ (run w9 [Msg.event 1, Msg.event 2]).clients ∧
    ((run w9 [Msg.event 1, Msg.event 2, Msg.event 3]).chans 0).isClosed =
      true ∧
    (run w9 [Msg.event 1, Msg.event 2, Msg.event 3]).clients = [] ∧
    runStep (run w9 [Msg.event 1, Msg.event 2, Msg.event 3]) (Msg.event 4) =
      run w9 [Msg.event 1, Msg.event 2, Msg.event 3] ∧
    Events.listen cfg9
        (run w9 [Msg.event 1, Msg.event 2, Msg.event 3, Msg.event 4]) =
      Except.ok (Events.state cfg9, 1,
        listenWorld
          (run w9 [Msg.event 1, Msg.event 2, Msg.event 3, Msg.event 4])) ∧
    Events.state cfg9 = 99 ∧
    ((run (listenWorld
        (run w9 [Msg.event 1, Msg.event 2, Msg.event 3, Msg.event 4]))
        [Msg.event 5]).chans 1).buf = [5] ∧
    ((run (listenWorld
        (run w9 [Msg.event 1, Msg.event 2, Msg.event 3, Msg.event 4]))
        [Msg.event 5]).chans 0).buf = [1, 2] :=
  ⟨by decide, by decide, by decide, by decide, by decide, by decide,
    rfl, rfl, rfl, by decide, by decide⟩

theorem sendChecked_ok {E : Type} (s : World E) (c : Nat) (e : E)
    (h : (s.chans c).isClosed = false) :
    sendChecked s c e = Except.ok (s.send c e) := by
  simp [sendChecked, h]

theorem dropChecked_ok {E : Type} (s : World E) (c : Nat)
    (h : (s.chans c).isClosed = false) :
    dropChecked s c = Except.ok (s.drop c) := by
  simp [dropChecked, h]

/-- Within one `publish` fold over a duplicate-free list of open
channels, every select send targets an open channel, so none of the Go
panics (send on closed channel, close of closed channel) can fire. -/
theorem sendFoldChecked_eq {E : Type} (e : E) :
    ∀ (l : List Nat) (t : World E), l.Nodup →
      (∀ c ∈ l, (t.chans c).isClosed = false) →
      l.foldlM (fun u c => sendChecked u c e) t =
        Except.ok (sendFold e t l) := by
  intro l
  induction l with
  | nil => intro t _ _; rfl
  | cons d l ih =>
      intro t hnd hop
      have hdl : d ∉ l := (List.nodup_cons.mp hnd).1
      have hln : l.Nodup := (List.nodup_cons.mp hnd).2
      have hopen : ∀ c ∈ l, ((t.send d e).chans c).isClosed = false := by
        intro c hc
        have hne : c ≠ d := fun h => hdl (h ▸ hc)
        rw [t.send_chans_ne e hne]
        exact hop c (List.mem_cons_of_mem d hc)
      simp only [List.foldlM_cons,
        sendChecked_ok t d e (hop d (List.mem_cons_self d l))]
      exact ih (t.send d e) hln hopen

/-- Within the shutdown `close` fold, every drop closes a still-open
channel: no channel is closed twice. -/
theorem dropFoldChecked_eq {E : Type} :
    ∀ (l : List Nat) (t : World E), l.Nodup →
      (∀ c ∈ l, (t.chans c).isClosed = false) →
      l.foldlM (fun u c => dropChecked u c) t =
        Except.ok (dropFold t l) := by
  intro l
  induction l with
  | nil => intro t _ _; rfl
  | cons d l ih =>
      intro t hnd hop
      have hdl : d ∉ l := (List.nodup_cons.mp hnd).1
      have hln : l.Nodup := (List.nodup_cons.mp hnd).2
      have hopen : ∀ c ∈ l, ((t.drop d).chans c).isClosed = false := by
        intro c hc
        have hne : c ≠ d := fun h => hdl (h ▸ hc)
        rw [t.drop_chans_ne hne]
        exact hop c (List.mem_cons_of_mem d hc)
      simp only [List.foldlM_cons,
        dropChecked_ok t d (hop d (List.mem_cons_self d l))]
      exact ih (t.drop d) hln hopen

theorem publish_WF {E : Type} (s : World E) (e : E) (hwf : WF s) :
    WF (s.publish e) := by
  rw [publish_eq_sendFold]
  refine ⟨sendFold_nodup e s.clients s hwf.1, ?_, ?_⟩
  · intro c hc
    have hcs : c ∈ s.clients := sendFold_clients_sub e s.clients s hc
    by_cases hroom : (s.chans c).buf.length < (s.chans c).cap
    · have h := (sendFold_spec e s.clients s c hwf.1 hwf.1 hcs hcs).1 hroom
      rw [h.1]
      exact hwf.2.1 c hcs
    · have h := (sendFold_spec e s.clients s c hwf.1 hwf.1 hcs hcs).2 hroom
      exact absurd hc h.2
  · intro c hc
    have hcs : c ∈ s.clients := sendFold_clients_sub e s.clients s hc
    rw [sendFold_nextId]
    exact hwf.2.2 c hcs

theorem closeAll_clients_nil {E : Type} (s : World E) (hwf : WF s) :
    s.closeAll.clients = [] := by
  rw [closeAll_eq_dropFold]
  rw [List.eq_nil_iff_forall_not_mem]
  intro c hc
  have hcs : c ∈ s.clients := dropFold_clients_sub s.clients s hc
  exact (dropFold_spec s.clients s c hwf.1 hwf.1 hcs).2 hc

theorem listenWorld_WF {E : Type} (s : World E) (hwf : WF s) :
    WF (listenWorld s) := by
  unfold listenWorld World.register
  refine ⟨hwf.1.insert, ?_, ?_⟩
  · intro c hc
    rcases List.mem_insert_iff.mp hc with h1 | h2
    · subst h1
      show (Function.update s.chans s.nextId (mkChan E EVENTS_BUFFER)
        s.nextId).isClosed = false
      rw [Function.update_same]
      rfl
    · have hne : c ≠ s.nextId := Nat.ne_of_lt (hwf.2.2 c h2)
      show (Function.update s.chans s.nextId (mkChan E EVENTS_BUFFER) c).isClosed = false
      rw [Function.update_noteq hne]
      exact hwf.2.1 c h2
  · intro c hc
    rcases List.mem_insert_iff.mp hc with h1 | h2
    · subst h1
      exact Nat.lt_succ_self s.nextId
    · exact Nat.lt_succ_of_lt (hwf.2.2 c h2)

/-- C10: invariant of the loop registry.  In a well-formed state every
registered queue is open; `publish` and the shutdown `close` therefore
never send on a closed queue and never close a queue twice (the checked
variants, in which those Go panics are explicit, succeed and agree with
the code), and every whole-system operation preserves well-formedness —
in particular a queue is closed only in the same step that removes it
from the registry. -/
theorem registry_invariant {E : Type} [Inhabited E] (cfg : EventConfig E)
    (s : World E) (e : E) (hwf : WF s) :
    publishChecked s e = Except.ok (s.publish e) ∧
    closeAllChecked s = Except.ok s.closeAll ∧
    ∀ op : Op E, WF (opStep cfg s op) := by
  refine ⟨?_, ?_, ?_⟩
  · unfold publishChecked
    rw [publish_eq_sendFold]
    exact sendFoldChecked_eq e s.clients s hwf.1 hwf.2.1
  · unfold closeAllChecked
    rw [closeAll_eq_dropFold]
    exact dropFoldChecked_eq s.clients s hwf.1 hwf.2.1
  · intro op
    cases op with
    | subscribe =>
        by_cases hr : s.running = true
        · rw [opStep_subscribe_running cfg s hr]
          exact listenWorld_WF s hwf
        · rw [opStep_subscribe_dead cfg s hr]
          exact hwf
    | stopClient d =>
        by_cases hr : s.running = true
        · rw [opStep_stop_running cfg s d hr]
          refine ⟨hwf.1.erase d, ?_, ?_⟩
          · intro c hc
            exact hwf.2.1 c (List.mem_of_mem_erase hc)
          · intro c hc
            exact hwf.2.2 c (List.mem_of_mem_erase hc)
        · rw [opStep_stop_dead cfg s d hr]
          exact hwf
    | publishEvent ev =>
        by_cases hr : s.running = true
        · have hop : opStep cfg s (Op.publishEvent ev) = s.publish ev := by
            show runStep s (Msg.event ev) = s.publish ev
            exact runStep_event s ev hr
          rw [hop]
          exact publish_WF s ev hwf
        · have hop : opStep cfg s (Op.publishEvent ev) = s :=
            runStep_dead s (Msg.event ev) hr
          rw [hop]
          exact hwf
    | sourceClose =>
        by_cases hr : s.running = true
        · have hop : opStep cfg s Op.sourceClose =
              { s.closeAll with running := false } := by
            show runStep s Msg.sourceClosed = _
            unfold runStep
            rw [if_pos hr]
          rw [hop]
          have hnil : s.closeAll.clients = [] := closeAll_clients_nil s hwf
          refine ⟨?_, ?_, ?_⟩
          · show s.closeAll.clients.Nodup
            rw [hnil]
            exact List.nodup_nil
          · intro c hc
            rw [show ({ s.closeAll with running := false } : World E).clients
              = s.closeAll.clients from rfl, hnil] at hc
            exact absurd hc (List.not_mem_nil c)
          · intro c hc
            rw [show ({ s.closeAll with running := false } : World E).clients
              = s.closeAll.clients from rfl, hnil] at hc
            exact absurd hc (List.not_mem_nil c)
        · have hop : opStep cfg s Op.sourceClose = s :=
            runStep_dead s Msg.sourceClosed hr
          rw [hop]
          exact hwf

theorem registry_invariant_witness :
    publishChecked wPub 7 = Except.ok (wPub.publish 7) ∧
    closeAllChecked wPub = Except.ok wPub.closeAll ∧
    ∀ op : Op Nat, WF (opStep cfgW wPub op) :=
  registry_invariant cfgW wPub 7 (by decide)

end GoWeb
